import Mathlib

/-!
Verification of the weight-calculation engine of `Markowitz_2.py`.

The price table is modelled as a list of rows, each row a function
`Fin n → ℚ` (one rational per asset column).  Per the data model
("Price Table: ... no missing values after cleaning"), the input price
table carries no missing cells, so `price.dropna()` is the identity and
cells are plain rationals.  Machine floats are idealised as `ℚ`.

`np.sqrt` / the square root inside `pandas.Series.std` is an uninterpreted
numeric primitive; it is carried as a field `sqrtm : ℚ → ℚ` of the
model.  No theorem below assumes anything about `sqrtm` beyond what the
code guarantees syntactically (the `clip(lower=1e-6)` makes every
volatility at least `1e-6` whatever `sqrtm` returns), so every result
holds for any model of the square root, in particular the true one.

NaN cells are modelled with `Option ℚ` (`none` = NaN).  In
`calculate_weights` the steady-state NaNs are uniform across the asset
columns of a row (the scalar divisors — the min-max sum and the weight
sum — are shared by the whole row, and the windowed statistics are
defined exactly when the window parameters allow them), so the steady
computation is represented as an `Option`-valued row:
  * `returns_window.std()` (sample std, `ddof=1`) is NaN iff the
    window holds fewer than two rows, i.e. iff `lookback < 2`
    (the steady loop always sees a full `lookback`-row window);
  * `momentum_window.mean()` is NaN iff `momentum_window = 0`;
  * `momentum_scores / momentum_scores.sum()` is `0/0 = NaN` in every
    cell iff all min-max normalised scores are `0`, i.e. iff their sum
    is `0` (they are nonnegative);
  * `weights / weights.sum()` divides by the skipna sum, which is `0`
    exactly when the row is all-NaN, and then each cell is again NaN.
`pandas` would produce `inf` (not NaN) on `x/0` with `x ≠ 0`; that
never happens in the reachable states above, and the model maps it to
`none` as well.
-/

namespace Markowitz

/-- Model of the `MyPortfolio` constructor state: the (clean) price
table, the excluded benchmark column, the lookback and momentum window
lengths, the momentum blend weight, and the square-root primitive. -/
structure MyPortfolio (n : ℕ) where
  price : List (Fin n → ℚ)
  exclude : Fin n
  lookback : ℕ
  momentum_window : ℕ
  momentum_weight : ℚ
  sqrtm : ℚ → ℚ

/-- Normalize a vector to unit sum over the index set `A`
(pointwise division by the sum, pandas `x / x.sum()`). -/
def normalize {n : ℕ} (A : Finset (Fin n)) (f : Fin n → ℚ) (j : Fin n) : ℚ :=
  f j / ∑ k ∈ A, f k

/-- Minimum of `s` over a finite index set (pandas `.min()` on a
NaN-free series); junk value `0` on the empty set, which the code never
reaches (an empty asset set crashes `1.0 / num_assets` first). -/
def fmin {n : ℕ} (A : Finset (Fin n)) (s : Fin n → ℚ) : ℚ :=
  if h : A.Nonempty then (A.image s).min' (h.image s) else 0

/-- Maximum of `s` over a finite index set (pandas `.max()`). -/
def fmax {n : ℕ} (A : Finset (Fin n)) (s : Fin n → ℚ) : ℚ :=
  if h : A.Nonempty then (A.image s).max' (h.image s) else 0

/-- Min-max normalisation with the `1e-6` denominator floor:
`(s - s.min()) / (s.max() - s.min() + 1e-6)`. -/
def minmaxN {n : ℕ} (A : Finset (Fin n)) (s : Fin n → ℚ) (j : Fin n) : ℚ :=
  (s j - fmin A s) / (fmax A s - fmin A s + 1 / 1000000)

/-- Inverse-volatility weights normalised to unit sum:
`inv_vol = 1.0 / volatilities; rp_weights = inv_vol / inv_vol.sum()`. -/
def rpFromVol {n : ℕ} (A : Finset (Fin n)) (v : Fin n → ℚ) : Fin n → ℚ :=
  normalize A fun j => 1 / v j

/-- Momentum weights from raw scores: min-max normalise, then
normalise to unit sum (`momentum_scores / momentum_scores.sum()`). -/
def momFromScores {n : ℕ} (A : Finset (Fin n)) (s : Fin n → ℚ) : Fin n → ℚ :=
  normalize A (minmaxN A s)

namespace MyPortfolio

variable {n : ℕ} (p : MyPortfolio n)

/-- Row `i` of the price table (out-of-range rows read as the zero row;
no in-range computation ever looks there). -/
def priceAt (i : ℕ) : Fin n → ℚ :=
  p.price.getD i fun _ => 0

/-- Cell `(i, j)` of `self.returns = price.pct_change().fillna(0)`:
simple percentage change from the prior row, first row `0`. -/
def returns (i : ℕ) (j : Fin n) : ℚ :=
  if i = 0 then 0
  else (p.priceAt i j - p.priceAt (i - 1) j) / p.priceAt (i - 1) j

/-- The returns DataFrame as a table: one row per price row. -/
def returnsTable : List (Fin n → ℚ) :=
  (List.range p.price.length).map fun i => p.returns i

/-- `assets = self.price.columns[self.price.columns != self.exclude]`. -/
def assets : Finset (Fin n) :=
  Finset.univ.filter fun j => j ≠ p.exclude

/-- `num_assets = len(assets)`. -/
def num_assets : ℕ :=
  p.assets.card

/-- `equal_weight = 1.0 / num_assets`. -/
def equal_weight : ℚ :=
  1 / (p.num_assets : ℚ)

/-- Mean of the trailing `lookback`-row window of returns ending just
before row `i` (the mean inside `returns_window.std()`). -/
def windowMean (i : ℕ) (j : Fin n) : ℚ :=
  (∑ k ∈ Finset.range p.lookback, p.returns (i - p.lookback + k) j) /
    (p.lookback : ℚ)

/-- Sample variance (`ddof = 1`, as in `pandas.Series.std`) of the
trailing `lookback`-row window of returns. -/
def sampleVar (i : ℕ) (j : Fin n) : ℚ :=
  (∑ k ∈ Finset.range p.lookback,
      (p.returns (i - p.lookback + k) j - p.windowMean i j) ^ 2) /
    ((p.lookback : ℚ) - 1)

/-- `volatilities = returns_window.std() * np.sqrt(252)`. -/
def volatilitiesRaw (i : ℕ) (j : Fin n) : ℚ :=
  p.sqrtm (p.sampleVar i j) * p.sqrtm 252

/-- `volatilities = volatilities.clip(lower=1e-6)`. -/
def volatilities (i : ℕ) (j : Fin n) : ℚ :=
  max (1 / 1000000) (p.volatilitiesRaw i j)

/-- The risk-parity component at date `i`:
`rp_weights = inv_vol / inv_vol.sum()`. -/
def rp_weights (i : ℕ) : Fin n → ℚ :=
  rpFromVol p.assets (p.volatilities i)

/-- `momentum_scores = momentum_window.mean() * 252` (raw trailing
mean daily return, annualised). -/
def momentum_scores (i : ℕ) (j : Fin n) : ℚ :=
  (∑ k ∈ Finset.range p.momentum_window,
      p.returns (i - p.momentum_window + k) j) /
    (p.momentum_window : ℚ) * 252

/-- The momentum component at date `i` after min-max normalisation and
unit-sum normalisation. -/
def momentum_weights (i : ℕ) : Fin n → ℚ :=
  momFromScores p.assets (p.momentum_scores i)

/-- The risk-parity row as computed by pandas: NaN (all cells at once)
when the sample std is undefined, i.e. when `lookback < 2`. -/
def rpRow (i : ℕ) : Option (Fin n → ℚ) :=
  if p.lookback < 2 then none else some (p.rp_weights i)

/-- The momentum row as computed by pandas: NaN when the mean window is
empty (`momentum_window = 0`), and NaN (`0/0` in every cell) when all
min-max normalised scores are `0`, i.e. their sum is `0` — which is
exactly the all-scores-equal case. -/
def momRow (i : ℕ) : Option (Fin n → ℚ) :=
  if p.momentum_window = 0 then none
  else if (∑ j ∈ p.assets, minmaxN p.assets (p.momentum_scores i) j) = 0 then none
  else some (p.momentum_weights i)

/-- `weights = (1 - momentum_weight) * rp_weights + momentum_weight *
momentum_weights`; NaN in either operand poisons the row (IEEE
`0 * NaN = NaN`, so this holds even at blend weight `0` or `1`). -/
def blendRow (i : ℕ) : Option (Fin n → ℚ) :=
  (p.rpRow i).bind fun rp =>
    (p.momRow i).map fun mo => fun j =>
      (1 - p.momentum_weight) * rp j + p.momentum_weight * mo j

/-- `weights = weights / weights.sum()`.  The skipna sum of an all-NaN
row is `0` and `NaN / 0 = NaN`, which the `bind` reproduces; a defined
row with zero sum would hit `x / 0` and is likewise mapped to NaN
(unreachable: a defined row always sums to `1`). -/
def steadyRow (i : ℕ) : Option (Fin n → ℚ) :=
  (p.blendRow i).bind fun wt =>
    if (∑ j ∈ p.assets, wt j) = 0 then none
    else some fun j => wt j / ∑ k ∈ p.assets, wt k

/-- The cell written into `portfolio_weights` before the final
`ffill`/`fillna`: equal weights during warm-up (`i < max(lookback,
momentum_window)`), the blended row afterwards, the excluded column
pinned to `0` in both loops. -/
def rawWeight (i : ℕ) (j : Fin n) : Option ℚ :=
  if i < max p.lookback p.momentum_window then
    some (if j = p.exclude then 0 else p.equal_weight)
  else if j = p.exclude then some 0
  else (p.steadyRow i).map fun f => f j

/-- `self.portfolio_weights.ffill(inplace=True)`: forward-fill each
column from the rows above. -/
def ffWeight : ℕ → Fin n → Option ℚ
  | 0, j => p.rawWeight 0 j
  | i + 1, j => (p.rawWeight (i + 1) j).orElse fun _ => ffWeight i j

/-- `self.portfolio_weights.fillna(0, inplace=True)`: the final weight
cell at date `i`, asset `j`. -/
def portfolio_weights_at (i : ℕ) (j : Fin n) : ℚ :=
  (p.ffWeight i j).getD 0

/-- The final weight table produced by `calculate_weights`, one row per
price row. -/
def portfolio_weights : List (Fin n → ℚ) :=
  (List.range p.price.length).map fun i j => p.portfolio_weights_at i j

end MyPortfolio

/-- Row `i` of the `"Portfolio"` column:
`returns[assets].mul(weights[assets]).sum(axis=1)` — the row-wise sum,
over the non-excluded columns, of return times weight. -/
def portfolioColumn {n : ℕ} (A : Finset (Fin n)) (Wt Rt : ℕ → Fin n → ℚ)
    (i : ℕ) : ℚ :=
  ∑ j ∈ A, Rt i j * Wt i j

/-- The `"Portfolio"` column of `calculate_portfolio_returns` at date
`i`. -/
def MyPortfolio.portfolio_returns_at {n : ℕ} (p : MyPortfolio n) (i : ℕ) : ℚ :=
  portfolioColumn p.assets (fun k => p.portfolio_weights_at k)
    (fun k => p.returns k) i

/-- `AssignmentJudge.check_portfolio_position`:
`(portfolio_weights.sum(axis=1) <= 1.01).all()` — the boolean result
(the print on failure is I/O and carries no data). -/
def check_portfolio_position {n : ℕ} (W : List (Fin n → ℚ)) : Bool :=
  W.all fun row => decide ((∑ j, row j) ≤ 101 / 100)

/-- `AssignmentJudge.check_sharp_ratio_greater_than_one`.  The Sharpe
ratio of the strategy (`report_metrics(df, mp)[1]`, a third-party
`quantstats` library value) enters as the parameter `sharpe_mp`; the
portfolio-position check result as `position_ok`. -/
def check_sharp_ratio_greater_than_one (position_ok : Bool)
    (sharpe_mp : ℚ) : ℕ :=
  if position_ok = false then 0
  else if 1 < sharpe_mp then 15
  else 0

/-- `AssignmentJudge.check_sharp_ratio_greater_than_spy`, with the two
library Sharpe ratios (`[1]` = strategy, `[0]` = SPY) as parameters. -/
def check_sharp_ratio_greater_than_spy (position_ok : Bool)
    (sharpe_mp sharpe_spy : ℚ) : ℕ :=
  if position_ok = false then 0
  else if sharpe_spy < sharpe_mp then 15
  else 0

/-- Concrete 3-column portfolio (column 0 excluded, `lookback = 3`,
`momentum_window = 2`, blend weight `0`) whose two non-excluded assets
have equal trailing mean returns but different volatilities at the
first steady-state date `i = 3`. -/
def pEx : MyPortfolio 3 where
  price := [![1, 1, 1], ![1, 2, 5/4], ![1, 2, 35/16], ![1, 2, 35/16]]
  exclude := 0
  lookback := 3
  momentum_window := 2
  momentum_weight := 0
  sqrtm := id

/-- Concrete 3-column portfolio with distinct momentum scores at the
steady-state date `i = 3` and blend weight `1/2`. -/
def pEx2 : MyPortfolio 3 where
  price := [![1, 1, 1], ![1, 2, 3], ![1, 3, 4], ![1, 3, 4]]
  exclude := 0
  lookback := 3
  momentum_window := 2
  momentum_weight := 1/2
  sqrtm := id

/-- Same table as `pEx2` but with blend weight `0` (pure risk
parity). -/
def pEx4 : MyPortfolio 3 where
  price := [![1, 1, 1], ![1, 2, 3], ![1, 3, 4], ![1, 3, 4]]
  exclude := 0
  lookback := 3
  momentum_window := 2
  momentum_weight := 0
  sqrtm := id

/-! ### Basic lemmas about the weight engine -/

lemma sum_normalize {n : ℕ} {A : Finset (Fin n)} {f : Fin n → ℚ}
    (h : (∑ k ∈ A, f k) ≠ 0) : ∑ j ∈ A, normalize A f j = 1 := by
  unfold normalize
  rw [← Finset.sum_div, div_self h]

lemma fmin_le {n : ℕ} {A : Finset (Fin n)} {s : Fin n → ℚ} {a : Fin n}
    (ha : a ∈ A) : fmin A s ≤ s a := by
  rw [fmin, dif_pos ⟨a, ha⟩]
  exact Finset.min'_le _ _ (Finset.mem_image_of_mem s ha)

lemma le_fmax {n : ℕ} {A : Finset (Fin n)} {s : Fin n → ℚ} {a : Fin n}
    (ha : a ∈ A) : s a ≤ fmax A s := by
  rw [fmax, dif_pos ⟨a, ha⟩]
  exact Finset.le_max' _ _ (Finset.mem_image_of_mem s ha)

lemma le_fmin {n : ℕ} {A : Finset (Fin n)} {s : Fin n → ℚ} {q : ℚ}
    (hA : A.Nonempty) (h : ∀ j ∈ A, q ≤ s j) : q ≤ fmin A s := by
  rw [fmin, dif_pos hA]
  refine Finset.le_min' _ _ _ fun y hy => ?_
  obtain ⟨j, hj, rfl⟩ := Finset.mem_image.mp hy
  exact h j hj

lemma fmin_mem {n : ℕ} {A : Finset (Fin n)} {s : Fin n → ℚ}
    (hA : A.Nonempty) : ∃ b ∈ A, s b = fmin A s := by
  rw [fmin, dif_pos hA]
  obtain ⟨b, hb, h⟩ := Finset.mem_image.mp ((A.image s).min'_mem (hA.image s))
  exact ⟨b, hb, h⟩

lemma fmin_le_fmax {n : ℕ} {A : Finset (Fin n)} {s : Fin n → ℚ}
    (hA : A.Nonempty) : fmin A s ≤ fmax A s := by
  obtain ⟨a, ha⟩ := hA
  exact le_trans (fmin_le ha) (le_fmax ha)

/-- The min-max denominator with its `1e-6` floor is strictly
positive, for every score vector. -/
lemma minmax_denom_pos {n : ℕ} (A : Finset (Fin n)) (s : Fin n → ℚ) :
    0 < fmax A s - fmin A s + 1 / 1000000 := by
  by_cases hA : A.Nonempty
  · have := fmin_le_fmax (s := s) hA
    have h6 : (0 : ℚ) < 1 / 1000000 := by norm_num
    linarith
  · rw [fmin, dif_neg hA, fmax, dif_neg hA]
    norm_num

lemma minmaxN_nonneg {n : ℕ} {A : Finset (Fin n)} {s : Fin n → ℚ} {j : Fin n}
    (hj : j ∈ A) : 0 ≤ minmaxN A s j :=
  div_nonneg (sub_nonneg.mpr (fmin_le hj)) (minmax_denom_pos A s).le

lemma fmax_mem {n : ℕ} {A : Finset (Fin n)} {s : Fin n → ℚ}
    (hA : A.Nonempty) : ∃ b ∈ A, s b = fmax A s := by
  rw [fmax, dif_pos hA]
  obtain ⟨b, hb, h⟩ := Finset.mem_image.mp ((A.image s).max'_mem (hA.image s))
  exact ⟨b, hb, h⟩

/-- On a constant score vector the minimum is that constant. -/
lemma fmin_const {n : ℕ} {A : Finset (Fin n)} {s : Fin n → ℚ} {c : ℚ}
    (hA : A.Nonempty) (h : ∀ j ∈ A, s j = c) : fmin A s = c := by
  obtain ⟨b, hb, hbe⟩ := fmin_mem (s := s) hA
  rw [← hbe, h b hb]

/-- If all scores over `A` are equal, every min-max normalised score is
`0` and their sum is `0` (the NaN-producing case of
`momentum_scores / momentum_scores.sum()`). -/
lemma sum_minmaxN_eq_zero {n : ℕ} {A : Finset (Fin n)} {s : Fin n → ℚ} {c : ℚ}
    (hA : A.Nonempty) (h : ∀ j ∈ A, s j = c) :
    ∑ j ∈ A, minmaxN A s j = 0 :=
  Finset.sum_eq_zero fun j hj => by
    rw [minmaxN, fmin_const hA h, h j hj, sub_self, zero_div]

lemma fmin_pair {n : ℕ} {a b : Fin n} (s : Fin n → ℚ) :
    fmin ({a, b} : Finset (Fin n)) s = min (s a) (s b) := by
  have ha : a ∈ ({a, b} : Finset (Fin n)) := by simp
  have hb : b ∈ ({a, b} : Finset (Fin n)) := by simp
  refine le_antisymm (le_min (fmin_le ha) (fmin_le hb)) (le_fmin ⟨a, ha⟩ ?_)
  intro j hj
  rcases Finset.mem_insert.mp hj with rfl | hj
  · exact min_le_left _ _
  · rw [Finset.mem_singleton.mp hj]
    exact min_le_right _ _

lemma fmax_pair {n : ℕ} {a b : Fin n} (s : Fin n → ℚ) :
    fmax ({a, b} : Finset (Fin n)) s = max (s a) (s b) := by
  have ha : a ∈ ({a, b} : Finset (Fin n)) := by simp
  have hb : b ∈ ({a, b} : Finset (Fin n)) := by simp
  have hub : ∀ j ∈ ({a, b} : Finset (Fin n)), s j ≤ max (s a) (s b) := by
    intro j hj
    rcases Finset.mem_insert.mp hj with rfl | hj
    · exact le_max_left _ _
    · rw [Finset.mem_singleton.mp hj]
      exact le_max_right _ _
  refine le_antisymm ?_ (max_le (le_fmax ha) (le_fmax hb))
  obtain ⟨u, hu, hue⟩ := fmax_mem (s := s) ⟨a, ha⟩
  rw [← hue]
  exact hub u hu

namespace MyPortfolio

variable {n : ℕ} (p : MyPortfolio n)

lemma mem_assets {j : Fin n} : j ∈ p.assets ↔ j ≠ p.exclude := by
  simp [assets]

lemma vol_pos (i : ℕ) (j : Fin n) : 0 < p.volatilities i j :=
  lt_of_lt_of_le (by norm_num) (le_max_left _ _)

lemma sum_rp_weights (hA : p.assets.Nonempty) (i : ℕ) :
    ∑ j ∈ p.assets, p.rp_weights i j = 1 := by
  have h : 0 < ∑ k ∈ p.assets, 1 / p.volatilities i k :=
    Finset.sum_pos (fun j _ => div_pos one_pos (p.vol_pos i j)) hA
  exact sum_normalize h.ne'

lemma sum_momentum_weights {i : ℕ}
    (h0 : (∑ j ∈ p.assets, minmaxN p.assets (p.momentum_scores i) j) ≠ 0) :
    ∑ j ∈ p.assets, p.momentum_weights i j = 1 :=
  sum_normalize h0

/-- A defined steady-state row always sums to `1` over the asset
columns (whatever the blend weight is): the final renormalisation
divides by the row sum, which the `if` guard keeps away from `0`. -/
lemma steadyRow_sum {i : ℕ} {f : Fin n → ℚ} (h : p.steadyRow i = some f) :
    ∑ j ∈ p.assets, f j = 1 := by
  rcases hb : p.blendRow i with _ | wt
  · rw [steadyRow, hb] at h
    simp at h
  · rw [steadyRow, hb] at h
    by_cases hz : (∑ j ∈ p.assets, wt j) = 0
    · simp [hz] at h
    · simp only [Option.some_bind, if_neg hz, Option.some_inj] at h
      subst h
      rw [← Finset.sum_div, div_self hz]

lemma rawWeight_exclude (i : ℕ) : p.rawWeight i p.exclude = some 0 := by
  rw [rawWeight]
  split_ifs with h1 h2 <;> simp_all

lemma ffWeight_exclude (i : ℕ) : p.ffWeight i p.exclude = some 0 := by
  induction i with
  | zero => simp [ffWeight, rawWeight_exclude]
  | succ i ih => simp [ffWeight, rawWeight_exclude]

lemma portfolio_weights_at_exclude (i : ℕ) :
    p.portfolio_weights_at i p.exclude = 0 := by
  simp [portfolio_weights_at, ffWeight_exclude]

/-- A written (non-NaN) cell survives the forward fill unchanged. -/
lemma ffWeight_of_raw {i : ℕ} {j : Fin n} {q : ℚ}
    (h : p.rawWeight i j = some q) : p.ffWeight i j = some q := by
  cases i <;> simp [ffWeight, h]

lemma rawWeight_warm {i : ℕ} (h : i < max p.lookback p.momentum_window)
    {j : Fin n} (hj : j ≠ p.exclude) :
    p.rawWeight i j = some p.equal_weight := by
  rw [rawWeight, if_pos h, if_neg hj]

lemma portfolio_weights_at_warm {i : ℕ}
    (h : i < max p.lookback p.momentum_window) {j : Fin n}
    (hj : j ≠ p.exclude) : p.portfolio_weights_at i j = p.equal_weight := by
  rw [portfolio_weights_at, p.ffWeight_of_raw (p.rawWeight_warm h hj)]
  rfl

lemma sum_equal_weight (hA : p.assets.Nonempty) :
    ∑ _j ∈ p.assets, p.equal_weight = 1 := by
  have hc : ((p.assets.card : ℚ)) ≠ 0 :=
    Nat.cast_ne_zero.mpr (Finset.card_ne_zero.mpr hA)
  rw [Finset.sum_const, equal_weight, num_assets, nsmul_eq_mul,
    mul_one_div_cancel hc]

lemma rawWeight_steady_none {i : ℕ}
    (hi : ¬ i < max p.lookback p.momentum_window)
    (hs : p.steadyRow i = none) {j : Fin n} (hj : j ≠ p.exclude) :
    p.rawWeight i j = none := by
  rw [rawWeight, if_neg hi, if_neg hj, hs]
  rfl

lemma rawWeight_steady_some {i : ℕ}
    (hi : ¬ i < max p.lookback p.momentum_window) {f : Fin n → ℚ}
    (hs : p.steadyRow i = some f) {j : Fin n} (hj : j ≠ p.exclude) :
    p.rawWeight i j = some (f j) := by
  rw [rawWeight, if_neg hi, if_neg hj, hs]
  rfl

/-- Master row-sum invariant: every row of the final weight table sums
to `1` over the non-excluded assets, by induction along the forward
fill (a NaN steady row inherits the previous row's values). -/
lemma sum_portfolio_weights_at (hA : p.assets.Nonempty)
    (hmax : 1 ≤ max p.lookback p.momentum_window) (i : ℕ) :
    ∑ j ∈ p.assets, p.portfolio_weights_at i j = 1 := by
  induction i with
  | zero =>
    rw [Finset.sum_congr rfl fun j hj =>
      p.portfolio_weights_at_warm hmax ((p.mem_assets).mp hj)]
    exact p.sum_equal_weight hA
  | succ i ih =>
    by_cases hw : i + 1 < max p.lookback p.momentum_window
    · rw [Finset.sum_congr rfl fun j hj =>
        p.portfolio_weights_at_warm hw ((p.mem_assets).mp hj)]
      exact p.sum_equal_weight hA
    · rcases hs : p.steadyRow (i + 1) with _ | f
      · have hcell : ∀ j ∈ p.assets,
            p.portfolio_weights_at (i + 1) j = p.portfolio_weights_at i j := by
          intro j hj
          rw [portfolio_weights_at, ffWeight,
            p.rawWeight_steady_none hw hs ((p.mem_assets).mp hj)]
          rfl
        rw [Finset.sum_congr rfl hcell]
        exact ih
      · have hcell : ∀ j ∈ p.assets,
            p.portfolio_weights_at (i + 1) j = f j := by
          intro j hj
          rw [portfolio_weights_at,
            p.ffWeight_of_raw (p.rawWeight_steady_some hw hs ((p.mem_assets).mp hj))]
          rfl
        rw [Finset.sum_congr rfl hcell]
        exact p.steadyRow_sum hs

/-- A NaN steady row is forward-filled from the previous row. -/
lemma portfolio_weights_at_succ_none {i : ℕ}
    (hi : ¬ i + 1 < max p.lookback p.momentum_window)
    (hs : p.steadyRow (i + 1) = none) {j : Fin n} (hj : j ≠ p.exclude) :
    p.portfolio_weights_at (i + 1) j = p.portfolio_weights_at i j := by
  rw [portfolio_weights_at, ffWeight, p.rawWeight_steady_none hi hs hj]
  rfl

lemma rpRow_eq {i : ℕ} (hL : 2 ≤ p.lookback) :
    p.rpRow i = some (p.rp_weights i) := by
  rw [rpRow, if_neg (by omega)]

lemma momRow_eq {i : ℕ} (hM : 1 ≤ p.momentum_window)
    (h0 : (∑ j ∈ p.assets, minmaxN p.assets (p.momentum_scores i) j) ≠ 0) :
    p.momRow i = some (p.momentum_weights i) := by
  rw [momRow, if_neg (by omega), if_neg h0]

lemma blendRow_eq {i : ℕ} (hL : 2 ≤ p.lookback) (hM : 1 ≤ p.momentum_window)
    (h0 : (∑ j ∈ p.assets, minmaxN p.assets (p.momentum_scores i) j) ≠ 0) :
    p.blendRow i = some fun j =>
      (1 - p.momentum_weight) * p.rp_weights i j +
        p.momentum_weight * p.momentum_weights i j := by
  rw [blendRow, p.rpRow_eq hL, p.momRow_eq hM h0]
  rfl

/-- A defined blended row sums to `1` over the assets, for every blend
weight: `(1-w)·1 + w·1 = 1`. -/
lemma sum_blend (hA : p.assets.Nonempty) {i : ℕ}
    (h0 : (∑ j ∈ p.assets, minmaxN p.assets (p.momentum_scores i) j) ≠ 0) :
    (∑ j ∈ p.assets, ((1 - p.momentum_weight) * p.rp_weights i j +
      p.momentum_weight * p.momentum_weights i j)) = 1 := by
  rw [Finset.sum_add_distrib, ← Finset.mul_sum, ← Finset.mul_sum,
    p.sum_rp_weights hA i, p.sum_momentum_weights h0]
  ring

/-- In the non-degenerate steady state the final renormalisation
divides by exactly `1`, so the recorded weight is the blended value
itself. -/
lemma portfolio_weights_at_steady (hA : p.assets.Nonempty)
    (hL : 2 ≤ p.lookback) (hM : 1 ≤ p.momentum_window) {i : ℕ}
    (hst : max p.lookback p.momentum_window ≤ i)
    (h0 : (∑ j ∈ p.assets, minmaxN p.assets (p.momentum_scores i) j) ≠ 0)
    {j : Fin n} (hj : j ∈ p.assets) :
    p.portfolio_weights_at i j =
      (1 - p.momentum_weight) * p.rp_weights i j +
        p.momentum_weight * p.momentum_weights i j := by
  have hni : ¬ i < max p.lookback p.momentum_window := not_lt.mpr hst
  have hsum := p.sum_blend hA h0
  have hsr : p.steadyRow i = some fun k =>
      ((1 - p.momentum_weight) * p.rp_weights i k +
        p.momentum_weight * p.momentum_weights i k) /
      ∑ m ∈ p.assets, ((1 - p.momentum_weight) * p.rp_weights i m +
        p.momentum_weight * p.momentum_weights i m) := by
    rw [steadyRow, p.blendRow_eq hL hM h0]
    simp only [Option.some_bind]
    rw [if_neg (by rw [hsum]; norm_num)]
  rw [portfolio_weights_at,
    p.ffWeight_of_raw (p.rawWeight_steady_some hni hsr (p.mem_assets.mp hj)),
    Option.getD_some, hsum, div_one]

end MyPortfolio

/-! ### Claim theorems -/

/-- Claim C1: for every date row produced by `calculate_weights` (both
warm-up and steady-state rows) the weights of the non-excluded assets
sum to exactly `1`, and the excluded (benchmark) column is exactly `0`.
Hypotheses: at least one non-excluded asset (otherwise the Python code
crashes on `1.0 / num_assets`) and a nonempty warm-up phase
`max(lookback, momentum_window) ≥ 1` (with both windows `0` even the
first row's statistics are NaN and the row fills to `0`). -/
theorem claim_C1 {n : ℕ} (p : MyPortfolio n) (hA : p.assets.Nonempty)
    (hmax : 1 ≤ max p.lookback p.momentum_window) :
    ∀ i, i < p.price.length →
      (∑ j ∈ p.assets, p.portfolio_weights_at i j) = 1 ∧
        p.portfolio_weights_at i p.exclude = 0 :=
  fun i _ => ⟨p.sum_portfolio_weights_at hA hmax i,
    p.portfolio_weights_at_exclude i⟩

/-- Witness for C1 at the concrete portfolio `pEx2`, date `0`. -/
theorem claim_C1_witness :
    (∑ j ∈ pEx2.assets, pEx2.portfolio_weights_at 0 j) = 1 ∧
      pEx2.portfolio_weights_at 0 pEx2.exclude = 0 :=
  claim_C1 pEx2 (by decide) (by decide) 0 (by decide)

/-- Claim C3: during warm-up (`i < max(lookback, momentum_window)` and
`i` in range) every non-excluded asset gets exactly the equal weight
`1/N` (`N = num_assets`) and the excluded column gets `0`. -/
theorem claim_C3 {n : ℕ} (p : MyPortfolio n) (i : ℕ)
    (hwarm : i < max p.lookback p.momentum_window)
    (hi : i < p.price.length) :
    (∀ j ∈ p.assets, p.portfolio_weights_at i j = 1 / (p.num_assets : ℚ)) ∧
      p.portfolio_weights_at i p.exclude = 0 :=
  ⟨fun j hj => p.portfolio_weights_at_warm hwarm ((p.mem_assets).mp hj),
    p.portfolio_weights_at_exclude i⟩

/-- Witness for C3 at `pEx2`, date `1` (warm-up, since
`max(3, 2) = 3`). -/
theorem claim_C3_witness :
    (∀ j ∈ pEx2.assets,
        pEx2.portfolio_weights_at 1 j = 1 / (pEx2.num_assets : ℚ)) ∧
      pEx2.portfolio_weights_at 1 pEx2.exclude = 0 :=
  claim_C3 pEx2 1 (by decide) (by decide)

/-- Claim C2: if at a steady-state date all assets' momentum scores are
equal, the `1e-6` floor keeps the min-max denominator nonzero, and the
weights finally recorded for that date are still well-defined and
satisfy the row-sum guarantee (the all-NaN raw row is forward-filled
from the previous row, which itself sums to `1`). -/
theorem claim_C2 {n : ℕ} (p : MyPortfolio n) (hA : p.assets.Nonempty)
    (hmax : 1 ≤ max p.lookback p.momentum_window) (i : ℕ)
    (hsteady : max p.lookback p.momentum_window ≤ i)
    (hi : i < p.price.length)
    (heq : ∀ j ∈ p.assets, ∀ k ∈ p.assets,
      p.momentum_scores i j = p.momentum_scores i k) :
    (fmax p.assets (p.momentum_scores i) - fmin p.assets (p.momentum_scores i)
        + 1 / 1000000) ≠ 0 ∧
      (∑ j ∈ p.assets, p.portfolio_weights_at i j) = 1 ∧
        p.portfolio_weights_at i p.exclude = 0 :=
  ⟨(minmax_denom_pos _ _).ne', p.sum_portfolio_weights_at hA hmax i,
    p.portfolio_weights_at_exclude i⟩

/-- Witness for C2 at `pEx`, whose two assets have equal momentum
scores (both `126`) at the steady-state date `3`. -/
theorem claim_C2_witness :
    (fmax pEx.assets (pEx.momentum_scores 3) -
        fmin pEx.assets (pEx.momentum_scores 3) + 1 / 1000000) ≠ 0 ∧
      (∑ j ∈ pEx.assets, pEx.portfolio_weights_at 3 j) = 1 ∧
        pEx.portfolio_weights_at 3 pEx.exclude = 0 := by
  have hsc : ∀ j ∈ pEx.assets, pEx.momentum_scores 3 j = 126 := by
    rw [show pEx.assets = {1, 2} by decide]
    intro j hj
    rcases Finset.mem_insert.mp hj with rfl | hj
    · norm_num [MyPortfolio.momentum_scores, MyPortfolio.returns,
        MyPortfolio.priceAt, pEx, Finset.sum_range_succ, Matrix.cons_val_one,
        Matrix.head_cons, Matrix.cons_val_zero, Matrix.cons_val_two,
        Matrix.tail_cons]
    · rw [Finset.mem_singleton.mp hj]
      norm_num [MyPortfolio.momentum_scores, MyPortfolio.returns,
        MyPortfolio.priceAt, pEx, Finset.sum_range_succ, Matrix.cons_val_one,
        Matrix.head_cons, Matrix.cons_val_zero, Matrix.cons_val_two,
        Matrix.tail_cons]
  exact claim_C2 pEx (by decide) (by decide) 3 (by decide) (by decide)
    fun j hj k hk => by rw [hsc j hj, hsc k hk]

/-- Claim C4, amended: the claim as stated fails in the degenerate
all-scores-equal case; it holds at a steady-state date as
soon as the date's statistics are well-defined: `lookback ≥ 2`,
`momentum_window ≥ 1`, and not all momentum scores equal (nonzero
min-max sum).  Then blend weight `0` gives exactly the risk-parity
weights and blend weight `1` exactly the momentum weights. -/
theorem claim_C4 {n : ℕ} (p : MyPortfolio n) (hA : p.assets.Nonempty)
    (hL : 2 ≤ p.lookback) (hM : 1 ≤ p.momentum_window) (i : ℕ)
    (hst : max p.lookback p.momentum_window ≤ i)
    (h0 : (∑ j ∈ p.assets, minmaxN p.assets (p.momentum_scores i) j) ≠ 0) :
    (p.momentum_weight = 0 →
      ∀ j ∈ p.assets, p.portfolio_weights_at i j = p.rp_weights i j) ∧
    (p.momentum_weight = 1 →
      ∀ j ∈ p.assets, p.portfolio_weights_at i j = p.momentum_weights i j) := by
  constructor
  · intro hw j hj
    rw [p.portfolio_weights_at_steady hA hL hM hst h0 hj, hw]
    ring
  · intro hw j hj
    rw [p.portfolio_weights_at_steady hA hL hM hst h0 hj, hw]
    ring

/-- Counterexample to C4 as stated: `pEx` has blend weight `0`, date
`3` is steady-state and inside the table, yet the final weight of asset
`1` is `1/2` (forward-filled from warm-up, because the all-equal
momentum scores make the raw row NaN) while its risk-parity weight is
`7/23`. -/
theorem claim_C4_counterexample :
    pEx.momentum_weight = 0 ∧
      max pEx.lookback pEx.momentum_window ≤ 3 ∧ 3 < pEx.price.length ∧
        pEx.portfolio_weights_at 3 1 ≠ pEx.rp_weights 3 1 := by
  refine ⟨rfl, by decide, by decide, ?_⟩
  have hA : pEx.assets.Nonempty := by decide
  have hsc : ∀ j ∈ pEx.assets, pEx.momentum_scores 3 j = 126 := by
    rw [show pEx.assets = {1, 2} by decide]
    intro j hj
    rcases Finset.mem_insert.mp hj with rfl | hj
    · norm_num [MyPortfolio.momentum_scores, MyPortfolio.returns,
        MyPortfolio.priceAt, pEx, Finset.sum_range_succ, Matrix.cons_val_one,
        Matrix.head_cons, Matrix.cons_val_zero, Matrix.cons_val_two,
        Matrix.tail_cons]
    · rw [Finset.mem_singleton.mp hj]
      norm_num [MyPortfolio.momentum_scores, MyPortfolio.returns,
        MyPortfolio.priceAt, pEx, Finset.sum_range_succ, Matrix.cons_val_one,
        Matrix.head_cons, Matrix.cons_val_zero, Matrix.cons_val_two,
        Matrix.tail_cons]
  have hmom : pEx.momRow 3 = none := by
    rw [MyPortfolio.momRow, if_neg (by decide),
      if_pos (sum_minmaxN_eq_zero hA hsc)]
  have hblend : pEx.blendRow 3 = none := by
    rw [MyPortfolio.blendRow, hmom]
    cases pEx.rpRow 3 <;> rfl
  have hst : pEx.steadyRow 3 = none := by
    rw [MyPortfolio.steadyRow, hblend]
    rfl
  have h32 : pEx.portfolio_weights_at 3 1 = pEx.portfolio_weights_at 2 1 :=
    pEx.portfolio_weights_at_succ_none (i := 2) (by decide) hst (by decide)
  have hlhs : pEx.portfolio_weights_at 3 1 = 1 / 2 := by
    rw [h32, pEx.portfolio_weights_at_warm (by decide) (by decide),
      MyPortfolio.equal_weight, show pEx.num_assets = 2 from by decide]
    norm_num
  have hv1 : pEx.volatilities 3 1 = 84 := by
    rw [MyPortfolio.volatilities, show pEx.volatilitiesRaw 3 1 = 84 by
      norm_num [MyPortfolio.volatilitiesRaw, MyPortfolio.sampleVar,
        MyPortfolio.windowMean, MyPortfolio.returns, MyPortfolio.priceAt, pEx,
        Finset.sum_range_succ, Matrix.cons_val_one, Matrix.head_cons,
        Matrix.cons_val_zero, Matrix.cons_val_two, Matrix.tail_cons, id],
      max_eq_right (by norm_num : (1 : ℚ) / 1000000 ≤ 84)]
  have hv2 : pEx.volatilities 3 2 = 147 / 4 := by
    rw [MyPortfolio.volatilities, show pEx.volatilitiesRaw 3 2 = 147 / 4 by
      norm_num [MyPortfolio.volatilitiesRaw, MyPortfolio.sampleVar,
        MyPortfolio.windowMean, MyPortfolio.returns, MyPortfolio.priceAt, pEx,
        Finset.sum_range_succ, Matrix.cons_val_one, Matrix.head_cons,
        Matrix.cons_val_zero, Matrix.cons_val_two, Matrix.tail_cons, id],
      max_eq_right (by norm_num : (1 : ℚ) / 1000000 ≤ 147 / 4)]
  have hrhs : pEx.rp_weights 3 1 = 7 / 23 := by
    simp only [MyPortfolio.rp_weights, rpFromVol, normalize,
      show pEx.assets = {1, 2} by decide,
      Finset.sum_pair (show (1 : Fin 3) ≠ 2 by decide), hv1, hv2]
    norm_num
  rw [hlhs, hrhs]
  norm_num

/-- Witness for the amended C4 at `pEx4` (blend weight `0`, distinct
momentum scores at the steady date `3`): the final weights equal the
risk-parity weights. -/
theorem claim_C4_witness :
    pEx4.momentum_weight = 0 ∧
      ∀ j ∈ pEx4.assets, pEx4.portfolio_weights_at 3 j = pEx4.rp_weights 3 j := by
  have h0 : (∑ j ∈ pEx4.assets,
      minmaxN pEx4.assets (pEx4.momentum_scores 3) j) ≠ 0 := by
    have h1 : pEx4.momentum_scores 3 1 = 189 := by
      norm_num [MyPortfolio.momentum_scores, MyPortfolio.returns,
        MyPortfolio.priceAt, pEx4, Finset.sum_range_succ, Matrix.cons_val_one,
        Matrix.head_cons, Matrix.cons_val_zero, Matrix.cons_val_two,
        Matrix.tail_cons]
    have h2 : pEx4.momentum_scores 3 2 = 294 := by
      norm_num [MyPortfolio.momentum_scores, MyPortfolio.returns,
        MyPortfolio.priceAt, pEx4, Finset.sum_range_succ, Matrix.cons_val_one,
        Matrix.head_cons, Matrix.cons_val_zero, Matrix.cons_val_two,
        Matrix.tail_cons]
    rw [show pEx4.assets = {1, 2} by decide,
      Finset.sum_pair (show (1 : Fin 3) ≠ 2 by decide), minmaxN, minmaxN,
      fmin_pair, fmax_pair, h1, h2]
    norm_num
  exact ⟨rfl,
    (claim_C4 pEx4 (by decide) (by decide) (by decide) 3 (by decide) h0).1 rfl⟩

/-! ### Monotonicity of the two component weight maps -/

/-- Raising one asset's (positive) volatility, holding the others
fixed, strictly lowers its normalised inverse-volatility weight, as
long as at least one other asset exists. -/
lemma rpFromVol_lt_of_update {n : ℕ} {A : Finset (Fin n)} {v : Fin n → ℚ}
    {a : Fin n} (ha : a ∈ A) (hv : ∀ j ∈ A, 0 < v j)
    (hb : ∃ b ∈ A, b ≠ a) {c : ℚ} (hc : v a < c) :
    rpFromVol A (Function.update v a c) a < rpFromVol A v a := by
  obtain ⟨b, hbA, hba⟩ := hb
  have hSpos : 0 < ∑ j ∈ A.erase a, 1 / v j :=
    Finset.sum_pos
      (fun j hj => div_pos one_pos (hv j (Finset.mem_of_mem_erase hj)))
      ⟨b, Finset.mem_erase.mpr ⟨hba, hbA⟩⟩
  have hva : 0 < v a := hv a ha
  have hcpos : 0 < c := hva.trans hc
  have hx : 0 < 1 / v a := div_pos one_pos hva
  have hy : 0 < 1 / c := div_pos one_pos hcpos
  have hyx : 1 / c < 1 / v a := one_div_lt_one_div_of_lt hva hc
  have hsum : ∑ j ∈ A, 1 / v j = 1 / v a + ∑ j ∈ A.erase a, 1 / v j :=
    (Finset.add_sum_erase A _ ha).symm
  have hsum' : ∑ j ∈ A, 1 / Function.update v a c j =
      1 / c + ∑ j ∈ A.erase a, 1 / v j := by
    rw [← Finset.add_sum_erase A _ ha, Function.update_same]
    congr 1
    exact Finset.sum_congr rfl fun j hj => by
      rw [Function.update_noteq (Finset.ne_of_mem_erase hj)]
  unfold rpFromVol normalize
  simp only [hsum, hsum', Function.update_same]
  rw [div_lt_div_iff₀ (add_pos hy hSpos) (add_pos hx hSpos)]
  nlinarith [mul_lt_mul_of_pos_right hyx hSpos]

/-- Claim C5: the risk-parity component weight an asset receives in
`calculate_weights` is strictly decreasing in that asset's trailing
(annualised, floored) volatility, other assets' volatilities held
fixed.  `rp_weights` is by definition `rpFromVol` of the clipped
volatility vector, and the clip makes every coordinate positive. -/
theorem claim_C5 {n : ℕ} (p : MyPortfolio n) (i : ℕ) (a : Fin n)
    (ha : a ∈ p.assets) (hb : ∃ b ∈ p.assets, b ≠ a) (c : ℚ)
    (hc : p.volatilities i a < c) :
    rpFromVol p.assets (Function.update (p.volatilities i) a c) a <
      p.rp_weights i a :=
  rpFromVol_lt_of_update ha (fun j _ => p.vol_pos i j) hb hc

/-- Witness for C5 at `pEx2`, date `3`, asset `1`, raised volatility
`10^9`. -/
theorem claim_C5_witness :
    rpFromVol pEx2.assets (Function.update (pEx2.volatilities 3) 1 1000000000)
        1 < pEx2.rp_weights 3 1 := by
  refine claim_C5 pEx2 3 1 (by decide) ⟨2, by decide, by decide⟩ 1000000000 ?_
  rw [MyPortfolio.volatilities]
  refine max_lt (by norm_num) ?_
  norm_num [MyPortfolio.volatilitiesRaw, MyPortfolio.sampleVar,
    MyPortfolio.windowMean, MyPortfolio.returns, MyPortfolio.priceAt, pEx2,
    Finset.sum_range_succ, Matrix.cons_val_one, Matrix.head_cons,
    Matrix.cons_val_zero, Matrix.cons_val_two, Matrix.tail_cons, id]

/-- The `1e-6`-floored min-max denominator cancels in the unit-sum
normalisation: the momentum weight is the plain share of the
min-subtracted score. -/
lemma sum_minmaxN_eq {n : ℕ} (A : Finset (Fin n)) (s : Fin n → ℚ) :
    ∑ j ∈ A, minmaxN A s j =
      (∑ j ∈ A, (s j - fmin A s)) /
        (fmax A s - fmin A s + 1 / 1000000) := by
  unfold minmaxN
  rw [← Finset.sum_div]

lemma momFromScores_eq {n : ℕ} {A : Finset (Fin n)} (hA : A.Nonempty)
    (s : Fin n → ℚ) (a : Fin n) :
    momFromScores A s a =
      (s a - fmin A s) / ∑ j ∈ A, (s j - fmin A s) := by
  have hD : (0 : ℚ) < fmax A s - fmin A s + 1 / 1000000 := minmax_denom_pos A s
  unfold momFromScores normalize
  rw [sum_minmaxN_eq]
  simp only [minmaxN]
  exact div_div_div_cancel_right₀ hD.ne' _ _

/-- Raising one momentum score, holding the others fixed, cannot lower
that asset's momentum component weight, provided the weight is defined
(nonzero min-max sum) before and after. -/
lemma momFromScores_le_of_update {n : ℕ} {A : Finset (Fin n)}
    {s : Fin n → ℚ} {a : Fin n} (ha : a ∈ A) {c : ℚ} (hc : s a ≤ c)
    (h0 : (∑ j ∈ A, minmaxN A s j) ≠ 0)
    (h1 : (∑ j ∈ A, minmaxN A (Function.update s a c) j) ≠ 0) :
    momFromScores A s a ≤ momFromScores A (Function.update s a c) a := by
  have hA : A.Nonempty := ⟨a, ha⟩
  rw [sum_minmaxN_eq] at h0 h1
  have hT0 : (∑ j ∈ A, (s j - fmin A s)) ≠ 0 := fun h => h0 (by rw [h, zero_div])
  have hT'0 : (∑ j ∈ A, (Function.update s a c j -
      fmin A (Function.update s a c))) ≠ 0 := fun h => h1 (by rw [h, zero_div])
  have hTnn : 0 ≤ ∑ j ∈ A, (s j - fmin A s) :=
    Finset.sum_nonneg fun j hj => sub_nonneg.mpr (fmin_le hj)
  have hT'nn : 0 ≤ ∑ j ∈ A, (Function.update s a c j -
      fmin A (Function.update s a c)) :=
    Finset.sum_nonneg fun j hj => sub_nonneg.mpr (fmin_le hj)
  rcases eq_or_lt_of_le (fmin_le ha : fmin A s ≤ s a) with heq | hlt
  · rw [momFromScores_eq hA s a, momFromScores_eq hA _ a, ← heq, sub_self,
      zero_div]
    exact div_nonneg (sub_nonneg.mpr (fmin_le ha))
      (lt_of_le_of_ne hT'nn (Ne.symm hT'0)).le
  · obtain ⟨b, hbA, hbm⟩ := fmin_mem (s := s) hA
    have hba : b ≠ a := by
      rintro rfl
      exact absurd hbm (ne_of_gt hlt)
    have hm' : fmin A (Function.update s a c) = fmin A s := by
      refine le_antisymm ?_ ?_
      · have h := fmin_le (s := Function.update s a c) hbA
        rwa [Function.update_noteq hba, hbm] at h
      · refine le_fmin hA fun j hj => ?_
        by_cases hja : j = a
        · subst hja
          rw [Function.update_same]
          exact (hlt.le).trans hc
        · rw [Function.update_noteq hja]
          exact fmin_le hj
    rw [hm'] at hT'0 hT'nn
    have hTpos := lt_of_le_of_ne hTnn (Ne.symm hT0)
    have hT'pos := lt_of_le_of_ne hT'nn (Ne.symm hT'0)
    have hTsplit : ∑ j ∈ A, (s j - fmin A s) =
        (s a - fmin A s) + ∑ j ∈ A.erase a, (s j - fmin A s) :=
      (Finset.add_sum_erase A _ ha).symm
    have hT'split : ∑ j ∈ A, (Function.update s a c j - fmin A s) =
        (c - fmin A s) + ∑ j ∈ A.erase a, (s j - fmin A s) := by
      rw [← Finset.add_sum_erase A _ ha, Function.update_same]
      congr 1
      exact Finset.sum_congr rfl fun j hj => by
        rw [Function.update_noteq (Finset.ne_of_mem_erase hj)]
    have hE : 0 ≤ ∑ j ∈ A.erase a, (s j - fmin A s) :=
      Finset.sum_nonneg fun j hj =>
        sub_nonneg.mpr (fmin_le (Finset.mem_of_mem_erase hj))
    rw [momFromScores_eq hA s a, momFromScores_eq hA _ a, hm',
      Function.update_same]
    rw [hTsplit] at hTpos ⊢
    rw [hT'split] at hT'pos ⊢
    rw [div_le_div_iff₀ hTpos hT'pos]
    nlinarith [mul_le_mul_of_nonneg_right (sub_le_sub_right hc (fmin A s)) hE]

/-- Claim C6: the momentum component weight an asset receives in
`calculate_weights` is monotonically (weakly) increasing in that
asset's trailing mean return score, other assets' scores held fixed,
whenever the momentum normalisation is defined before and after (the
weak inequality is sharp: an asset at the minimum score keeps weight
`0` under small raises). -/
theorem claim_C6 {n : ℕ} (p : MyPortfolio n) (i : ℕ) (a : Fin n)
    (ha : a ∈ p.assets) (c : ℚ) (hc : p.momentum_scores i a ≤ c)
    (h0 : (∑ j ∈ p.assets, minmaxN p.assets (p.momentum_scores i) j) ≠ 0)
    (h1 : (∑ j ∈ p.assets,
      minmaxN p.assets (Function.update (p.momentum_scores i) a c) j) ≠ 0) :
    p.momentum_weights i a ≤
      momFromScores p.assets (Function.update (p.momentum_scores i) a c) a :=
  momFromScores_le_of_update ha hc h0 h1

/-- Witness for C6 at `pEx2`, date `3`, asset `1` (score `189`, other
asset at `294`), raised score `500`. -/
theorem claim_C6_witness :
    pEx2.momentum_weights 3 1 ≤
      momFromScores pEx2.assets
        (Function.update (pEx2.momentum_scores 3) 1 500) 1 := by
  have h1 : pEx2.momentum_scores 3 1 = 189 := by
    norm_num [MyPortfolio.momentum_scores, MyPortfolio.returns,
      MyPortfolio.priceAt, pEx2, Finset.sum_range_succ, Matrix.cons_val_one,
      Matrix.head_cons, Matrix.cons_val_zero, Matrix.cons_val_two,
      Matrix.tail_cons]
  have h2 : pEx2.momentum_scores 3 2 = 294 := by
    norm_num [MyPortfolio.momentum_scores, MyPortfolio.returns,
      MyPortfolio.priceAt, pEx2, Finset.sum_range_succ, Matrix.cons_val_one,
      Matrix.head_cons, Matrix.cons_val_zero, Matrix.cons_val_two,
      Matrix.tail_cons]
  refine claim_C6 pEx2 3 1 (by decide) 500 (by rw [h1]; norm_num) ?_ ?_
  · rw [show pEx2.assets = {1, 2} by decide,
      Finset.sum_pair (show (1 : Fin 3) ≠ 2 by decide), minmaxN, minmaxN,
      fmin_pair, fmax_pair, h1, h2]
    norm_num
  · rw [show pEx2.assets = {1, 2} by decide,
      Finset.sum_pair (show (1 : Fin 3) ≠ 2 by decide), minmaxN, minmaxN,
      fmin_pair, fmax_pair, Function.update_same,
      Function.update_noteq (show (2 : Fin 3) ≠ 1 by decide), h2]
    norm_num

/-! ### The judge checks -/

/-- Splitting a whole-row sum into the asset columns plus the excluded
column. -/
lemma MyPortfolio.sum_univ_split {n : ℕ} (p : MyPortfolio n)
    (f : Fin n → ℚ) :
    (∑ j, f j) = (∑ j ∈ p.assets, f j) + f p.exclude := by
  have h := Finset.sum_filter_add_sum_filter_not Finset.univ
    (fun j => j ≠ p.exclude) f
  rw [show Finset.univ.filter (fun j => ¬j ≠ p.exclude) = {p.exclude} by
      ext x
      simp, Finset.sum_singleton] at h
  rw [← h]
  rfl

/-- Claim C7: `check_portfolio_position` returns `True` exactly when
every date row of the given weight table sums to at most the tolerance
constant `1.01`; and since every computed row sums to exactly
`1 + 0 ≤ 1.01`, the check accepts the computed weight tables. -/
theorem claim_C7 {n : ℕ} (W : List (Fin n → ℚ)) (p : MyPortfolio n)
    (hA : p.assets.Nonempty)
    (hmax : 1 ≤ max p.lookback p.momentum_window) :
    (check_portfolio_position W = true ↔
      ∀ row ∈ W, (∑ j, row j) ≤ 101 / 100) ∧
      check_portfolio_position p.portfolio_weights = true := by
  constructor
  · simp [check_portfolio_position]
  · simp only [check_portfolio_position, List.all_eq_true, decide_eq_true_eq]
    intro row hrow
    simp only [MyPortfolio.portfolio_weights, List.mem_map,
      List.mem_range] at hrow
    obtain ⟨i, hi, rfl⟩ := hrow
    rw [p.sum_univ_split, p.sum_portfolio_weights_at hA hmax i,
      p.portfolio_weights_at_exclude i]
    norm_num

/-- Witness for C7 with the empty table and the portfolio `pEx2`. -/
theorem claim_C7_witness :
    ((check_portfolio_position ([] : List (Fin 3 → ℚ)) = true ↔
      ∀ row ∈ ([] : List (Fin 3 → ℚ)), (∑ j, row j) ≤ 101 / 100) ∧
      check_portfolio_position pEx2.portfolio_weights = true) :=
  claim_C7 [] pEx2 (by decide) (by decide)

/-- Claim C8: the two threshold checks are total functions of the
position-check flag and the (library-supplied) Sharpe ratios: they
return `15` exactly when the position check passed and the strict
comparison holds, and `0` in every other case — never an exception. -/
theorem claim_C8 : ∀ (ok : Bool) (s t u : ℚ),
    (check_sharp_ratio_greater_than_one ok s = 15 ↔ ok = true ∧ 1 < s) ∧
    (check_sharp_ratio_greater_than_one ok s = 0 ∨
      check_sharp_ratio_greater_than_one ok s = 15) ∧
    (check_sharp_ratio_greater_than_spy ok t u = 15 ↔ ok = true ∧ u < t) ∧
    (check_sharp_ratio_greater_than_spy ok t u = 0 ∨
      check_sharp_ratio_greater_than_spy ok t u = 15) := by
  intro ok s t u
  cases ok <;>
    simp only [check_sharp_ratio_greater_than_one,
      check_sharp_ratio_greater_than_spy] <;>
    split_ifs <;> simp_all

/-! ### The returns table and the portfolio column -/

lemma MyPortfolio.returnsTable_getD {n : ℕ} (p : MyPortfolio n) {i : ℕ}
    (hi : i < p.price.length) :
    p.returnsTable.getD i (fun _ => 0) = p.returns i := by
  have h1 : i < p.returnsTable.length := by
    simpa [MyPortfolio.returnsTable] using hi
  rw [List.getD_eq_getElem _ _ h1]
  simp [MyPortfolio.returnsTable]

/-- Claim C9: the returns table has one row per price row (and the same
asset columns, by construction over `Fin n`), its first row is zero,
and each later cell is the simple percentage change of that asset's
price from the prior date. -/
theorem claim_C9 {n : ℕ} (p : MyPortfolio n) :
    p.returnsTable.length = p.price.length ∧
    (0 < p.price.length → ∀ j, p.returnsTable.getD 0 (fun _ => 0) j = 0) ∧
    (∀ i, 0 < i → i < p.price.length → ∀ j,
      p.returnsTable.getD i (fun _ => 0) j =
        (p.priceAt i j - p.priceAt (i - 1) j) / p.priceAt (i - 1) j) := by
  refine ⟨by simp [MyPortfolio.returnsTable], ?_, ?_⟩
  · intro h j
    rw [p.returnsTable_getD h]
    simp [MyPortfolio.returns]
  · intro i h0 hi j
    rw [p.returnsTable_getD hi, MyPortfolio.returns, if_neg (by omega)]

/-- Witness for C9 at `pEx2`: row `1`, column `1`. -/
theorem claim_C9_witness :
    pEx2.returnsTable.getD 1 (fun _ => 0) 1 =
      (pEx2.priceAt 1 1 - pEx2.priceAt 0 1) / pEx2.priceAt 0 1 :=
  (claim_C9 pEx2).2.2 1 (by decide) (by decide) 1

/-- Claim C10: the `"Portfolio"` column is the row-wise sum over the
non-excluded assets of weight times return, and the excluded
(benchmark) asset's return never contributes: replacing the returns of
the excluded column by anything at all leaves the column unchanged. -/
theorem claim_C10 {n : ℕ} (p : MyPortfolio n) (i : ℕ) :
    p.portfolio_returns_at i =
      (∑ j ∈ p.assets, p.portfolio_weights_at i j * p.returns i j) ∧
    ∀ Rt : ℕ → Fin n → ℚ,
      (∀ k (j : Fin n), j ≠ p.exclude → Rt k j = p.returns k j) →
      portfolioColumn p.assets (fun k => p.portfolio_weights_at k) Rt i =
        p.portfolio_returns_at i := by
  constructor
  · unfold MyPortfolio.portfolio_returns_at portfolioColumn
    exact Finset.sum_congr rfl fun j _ => mul_comm _ _
  · intro Rt h
    unfold MyPortfolio.portfolio_returns_at portfolioColumn
    exact Finset.sum_congr rfl fun j hj => by
      rw [h i j (p.mem_assets.mp hj)]

/-- Witness for C10 at `pEx2`, date `0`, with the returns themselves as
the replacement table. -/
theorem claim_C10_witness :
    portfolioColumn pEx2.assets (fun k => pEx2.portfolio_weights_at k)
        (fun k => pEx2.returns k) 0 = pEx2.portfolio_returns_at 0 :=
  (claim_C10 pEx2 0).2 (fun k => pEx2.returns k) fun _ _ _ => rfl

end Markowitz
